import Mathlib

/-
Verification development for the netfilter extension registry and the
kernfs dentry/filesystem core (pkg/sentry/socket/netfilter/extensions.go
and the kernfs package of the same repository).

Go maps are embedded as association lists with at most one binding per
key maintained by `mInsert` (insert-or-replace, matching Go map
assignment) and `mDelete` (matching Go's `delete`, a no-op on an absent
key).  Machine integers are embedded as `Nat`; reductions modulo 2^w are
written explicitly where the Go code can overflow.  Go `panic` is
embedded as an explicit error value carrying the panic message, so that
a panicking call returns the unmodified state alongside the message.
-/

section MapHelpers

variable {α β : Type} [DecidableEq α]

/-- Lookup in an association-list map (Go map indexing `m[k]`). -/
def mLookup : List (α × β) → α → Option β
  | [], _ => none
  | (a, b) :: t, k => if a = k then some b else mLookup t k

/-- Insert-or-replace in an association-list map (Go map assignment `m[k] = v`). -/
def mInsert : List (α × β) → α → β → List (α × β)
  | [], k, v => [(k, v)]
  | (a, b) :: t, k, v => if a = k then (k, v) :: t else (a, b) :: mInsert t k v

/-- Key removal from an association-list map (Go `delete(m, k)`). -/
def mDelete : List (α × β) → α → List (α × β)
  | [], _ => []
  | (a, b) :: t, k => if a = k then t else (a, b) :: mDelete t k

end MapHelpers

/-! ## Netfilter extension registry (extensions.go, netfilter part)

The `stack.Matcher`, `stack.Target`, `stack.IPHeaderFilter` collaborator
types are opaque to this file's code except for the accessors it calls
(`Name()`, `ID()`, `NetworkProtocol()`), so they are embedded as records
exposing exactly those.  The `matchMaker` / `targetMaker` interfaces are
records whose behavioural fields are arbitrary functions supplied by
other packages.  Byte strings (`[]byte`, fixed-size name arrays) are
embedded as `List Nat`, each element a byte value. -/

/-- Result of a Go call that can return a recoverable error (`err`) or
abort by panicking (`panicked`). -/
inductive GoResult (ε : Type) (γ : Type) : Type
  | ok (a : γ)
  | err (e : ε)
  | panicked (msg : String)
deriving DecidableEq

/-- `*syserr.Error` values relevant here. -/
inductive Syserr : Type
  | invalidArgument
  | other (s : String)
deriving DecidableEq

/-- `stack.Matcher`, seen through the only accessor used here: `Name()`. -/
structure StackMatcher where
  Name : String
deriving DecidableEq

/-- `stack.TargetID`. -/
structure TargetID where
  Name : String
  NetworkProtocol : Nat
  Revision : Nat
deriving DecidableEq

/-- `stack.Target`, seen through the only accessor used here: `ID()`. -/
structure StackTarget where
  ID : TargetID
deriving DecidableEq

/-- `stack.IPHeaderFilter`, seen through `NetworkProtocol()`. -/
structure IPHeaderFilter where
  NetworkProtocol : Nat

/-- `linux.XTEntryMatch` as handed to `unmarshalMatcher` (`Name.String()`
is already a Go string there). -/
structure XTEntryMatch where
  MatchSize : Nat
  Name : String
  Revision : Nat

/-- `linux.XTEntryTarget` as handed to `unmarshalTarget`. -/
structure XTEntryTarget where
  Name : String
  Revision : Nat

/-- The `matchMaker` interface: a name plus marshal/unmarshal behaviour
supplied by the registering extension package. -/
structure MatchMaker where
  name : String
  marshal : StackMatcher → List Nat
  unmarshal : List Nat → IPHeaderFilter → GoResult String StackMatcher

/-- The `targetMaker` interface. -/
structure TargetMaker where
  id : TargetID
  marshal : StackTarget → List Nat
  unmarshal : List Nat → IPHeaderFilter → GoResult Syserr StackTarget

/-- The `matchMakers` registry is a Go map keyed by matcher name. -/
abbrev MatchRegistry : Type := List (String × MatchMaker)

/-- The `targetMakers` registry is a Go map keyed by `stack.TargetID`. -/
abbrev TargetRegistry : Type := List (TargetID × TargetMaker)

/-- `registerMatchMaker`: panics (second component) if a matchMaker with
the same name is already registered, otherwise inserts.  On panic the
registry (first component) is the unmodified input, since the source
checks before mutating. -/
def registerMatchMaker (reg : MatchRegistry) (mm : MatchMaker) :
    MatchRegistry × Option String :=
  match mLookup reg mm.name with
  | some _ => (reg, some ("Multiple matches registered with name " ++ mm.name))
  | none => (mInsert reg mm.name mm, none)

/-- `marshalMatcher`: panics on an unregistered matcher name, otherwise
delegates to the registered maker's `marshal`. -/
def marshalMatcher (reg : MatchRegistry) (matcher : StackMatcher) :
    GoResult Empty (List Nat) :=
  match mLookup reg matcher.Name with
  | some mk => GoResult.ok (mk.marshal matcher)
  | none => GoResult.panicked "Unknown matcher"

/-- `unmarshalMatcher`: an unsupported matcher name is a recoverable
error (`fmt.Errorf`), otherwise delegates to the maker's `unmarshal`. -/
def unmarshalMatcher (reg : MatchRegistry) (match_ : XTEntryMatch)
    (filter : IPHeaderFilter) (buf : List Nat) : GoResult String StackMatcher :=
  match mLookup reg match_.Name with
  | some mk => mk.unmarshal buf filter
  | none => GoResult.err ("unsupported matcher with name " ++ match_.Name)

/-- `registerTargetMaker`: panics if a targetMaker with the same
`TargetID` is already registered, otherwise inserts. -/
def registerTargetMaker (reg : TargetRegistry) (tm : TargetMaker) :
    TargetRegistry × Option String :=
  match mLookup reg tm.id with
  | some _ => (reg, some "multiple targets registered")
  | none => (mInsert reg tm.id tm, none)

/-- `marshalTarget`: panics on an unregistered `TargetID`. -/
def marshalTarget (reg : TargetRegistry) (target : StackTarget) :
    GoResult Empty (List Nat) :=
  match mLookup reg target.ID with
  | some mk => GoResult.ok (mk.marshal target)
  | none => GoResult.panicked "unknown target"

/-- `unmarshalTarget`: an unregistered `TargetID` (built from the entry
name, the filter's network protocol, and the entry revision) yields
`syserr.ErrInvalidArgument`. -/
def unmarshalTarget (reg : TargetRegistry) (target : XTEntryTarget)
    (filter : IPHeaderFilter) (buf : List Nat) : GoResult Syserr StackTarget :=
  let tid : TargetID :=
    { Name := target.Name
      NetworkProtocol := filter.NetworkProtocol
      Revision := target.Revision }
  match mLookup reg tid with
  | some mk => mk.unmarshal buf filter
  | none => GoResult.err Syserr.invalidArgument

/-- `targetRevision`: `(0, false)` when the exact `TargetID` is absent;
otherwise the loop raises `rev` to any strictly larger registered
revision with the same name and network protocol. -/
def targetRevision (reg : TargetRegistry) (name : String) (netProto : Nat)
    (rev : Nat) : Nat × Bool :=
  let tid : TargetID := { Name := name, NetworkProtocol := netProto, Revision := rev }
  match mLookup reg tid with
  | none => (0, false)
  | some _ =>
    (reg.foldl (fun r kv =>
      let otherID := kv.2.id
      if name = otherID.Name ∧ netProto = otherID.NetworkProtocol ∧ otherID.Revision > r
      then otherID.Revision else r) rev, true)

/-! ### marshalEntryMatch -/

/-- `bits.AlignUp(length, alignment)` for a power-of-two alignment:
`(length + alignment - 1) &^ (alignment - 1)`. -/
def alignUp (length alignment : Nat) : Nat :=
  (length + alignment - 1) / alignment * alignment

/-- `linux.SizeOfXTEntryMatch`: 2 (MatchSize) + 29 (Name) + 1 (Revision). -/
def SizeOfXTEntryMatch : Nat := 32

/-- The 29-byte `Name` field after `copy(matcher.Name[:], name)`: the
first `min 29 (name.length)` bytes of `name`, the rest zero. -/
def nameField (name : List Nat) : List Nat :=
  name.take 29 ++ List.replicate (29 - name.length) 0

/-- `XTEntryMatch.MarshalUnsafe`: little-endian `MatchSize`, the 29-byte
name array, then `Revision` (zero here). -/
def marshalXTEntryMatchHeader (matchSize : Nat) (name : List Nat) : List Nat :=
  [matchSize % 256, matchSize / 256 % 256] ++ nameField name ++ [0]

/-- `marshalEntryMatch(name, data)` as written in the source: builds a
zeroed buffer of the 8-byte-aligned size, marshals the header into its
first 32 bytes, copies `data` after it, then returns
`append(buf[size-padLen:], make([]byte, padLen)...)`. -/
def marshalEntryMatch (name : List Nat) (data : List Nat) : List Nat :=
  let size := alignUp (SizeOfXTEntryMatch + data.length) 8
  let entryLen := SizeOfXTEntryMatch
  let padLen := size - entryLen - data.length
  let buf := marshalXTEntryMatchHeader (size % 65536) name ++ data ++
    List.replicate padLen 0
  List.drop (size - padLen) buf ++ List.replicate padLen 0

/-- What the function's own doc comment and padding comment describe: a
marshalled `XTEntryMatch` header with the data appended and zero padding
up to the 8-byte-aligned size.  Used only to exhibit the divergence of
`marshalEntryMatch` from its documented behaviour. -/
def marshalEntryMatchDocumented (name : List Nat) (data : List Nat) : List Nat :=
  let size := alignUp (SizeOfXTEntryMatch + data.length) 8
  let padLen := size - SizeOfXTEntryMatch - data.length
  marshalXTEntryMatchHeader (size % 65536) name ++ data ++ List.replicate padLen 0

/-! ## Kernfs dentry/filesystem core

A `World` is the heap of one kernfs filesystem instance: its dentries
and inodes addressed by numeric identifiers (standing for Go pointers),
plus the filesystem's own fields (`droppedDentries`,
`nextInoMinusOne`).  `Inode` is opaque to the tree code except for the
accessors it calls (`Mode()`, reference counting), so it is embedded as
a mode plus a reference count.  Lock acquisition/release and the
notifications the code issues are recorded in an event trace, so that
ordering claims (what happens while a lock is held, what happens after
it is dropped) are statements about the trace. -/

/-- `dflagsIsDir`: dentry points to a directory inode. -/
def dflagsIsDir : Nat := 1

/-- `dflagsIsSymlink`: dentry points to a symlink inode. -/
def dflagsIsSymlink : Nat := 2

/-- `linux.S_IFMT`-masked file type of a mode. -/
def fileType (mode : Nat) : Nat := mode &&& 0xF000

/-- `linux.ModeDirectory` (`S_IFDIR`). -/
def ModeDirectory : Nat := 0x4000

/-- `linux.ModeSymlink` (`S_IFLNK`). -/
def ModeSymlink : Nat := 0xA000

/-- The fields of a kernfs `Dentry` used by the tree code.  `refs` is
the dentry's reference count (the `DentryRefs` count); `inode = none`
embeds the nil inode pointer written on destruction. -/
structure DentryS where
  refs : Nat
  flags : Nat
  parent : Option Nat
  name : String
  children : List (String × Nat)
  inode : Option Nat
deriving DecidableEq

/-- The fields of an `Inode` implementation seen by this code: its mode
and its own reference count. -/
structure InodeS where
  refs : Nat
  mode : Nat
deriving DecidableEq

/-- One kernfs filesystem instance together with its heap. -/
structure World where
  dentries : List (Nat × DentryS)
  inodes : List (Nat × InodeS)
  droppedDentries : List Nat
  nextInoMinusOne : Nat
deriving DecidableEq

/-- Observable actions of the kernfs code, in program order. -/
inductive Event : Type
  | lockTree
  | unlockTree
  | lockQueue
  | resetQueue
  | unlockQueue
  | lockDirMu (d : Nat)
  | unlockDirMu (d : Nat)
  | decCount (d : Nat)
  | inodeDecRef (d : Nat)
  | removeChild (p : Nat) (name : String)
  | invalidateDentry (d : Nat)
  | decRefCall (d : Nat)
deriving DecidableEq

/-- Dentry heap read (dereference of a `*Dentry`). -/
def getD (w : World) (d : Nat) : Option DentryS := mLookup w.dentries d

/-- Dentry heap write. -/
def setD (w : World) (d : Nat) (den : DentryS) : World :=
  { w with dentries := mInsert w.dentries d den }

/-- Dentry heap update; a no-op on a dangling identifier (a Go pointer
is never dangling in the source's valid states). -/
def updD (w : World) (d : Nat) (f : DentryS → DentryS) : World :=
  match getD w d with
  | some den => setD w d (f den)
  | none => w

/-- Inode heap read. -/
def getI (w : World) (i : Nat) : Option InodeS := mLookup w.inodes i

/-- Inode heap update. -/
def updI (w : World) (i : Nat) (f : InodeS → InodeS) : World :=
  match getI w i with
  | some ino => { w with inodes := mInsert w.inodes i (f ino) }
  | none => w

/-- `Dentry.isDir`: the cached directory flag, read atomically. -/
def DentryS.isDir (den : DentryS) : Bool := den.flags &&& dflagsIsDir != 0

/-- `Dentry.isSymlink`: the cached symlink flag, read atomically. -/
def DentryS.isSymlink (den : DentryS) : Bool := den.flags &&& dflagsIsSymlink != 0

/-- `isDir` on a heap dentry; false on a dangling identifier. -/
def isDirW (w : World) (d : Nat) : Bool :=
  match getD w d with
  | some den => den.isDir
  | none => false

/-- `Dentry.Init(fs, inode)`: stores the inode (transferring the
caller's inode reference: the inode's count is not touched) and caches
the directory/symlink flags from `inode.Mode().FileType()`.  The fresh
dentry starts with one reference.  A no-op on a dangling inode
identifier (the caller holds a reference on the inode, so it exists). -/
def DentryInit (w : World) (d : Nat) (i : Nat) : World :=
  match getI w i with
  | none => w
  | some ino =>
    let ftype := fileType ino.mode
    let flags := (if ftype = ModeDirectory then dflagsIsDir else 0) |||
      (if ftype = ModeSymlink then dflagsIsSymlink else 0)
    setD w d
      { refs := 1, flags := flags, parent := none, name := "",
        children := [], inode := some i }

/-- `Dentry.insertChildLocked(name, child)`: panics (second component,
with the world unmodified) when the dentry is not a directory; otherwise
takes a reference on the parent, sets the child's parent pointer and
name, and inserts the child into the parent's child map. -/
def insertChildLocked (w : World) (d : Nat) (name : String) (child : Nat) :
    World × Option String :=
  if isDirW w d then
    let w1 := updD w d (fun den => { den with refs := den.refs + 1 })
    let w2 := updD w1 child (fun cden => { cden with parent := some d, name := name })
    let w3 := updD w2 d (fun den => { den with children := mInsert den.children name child })
    (w3, none)
  else
    (w, some "insertChildLocked called on non-directory Dentry")

/-- `Dentry.insertChild(name, child)`: takes `d.dirMu` and calls
`insertChildLocked`. -/
def insertChild (w : World) (d : Nat) (name : String) (child : Nat) :
    World × Option String :=
  insertChildLocked w d name child

/-- One activation of `Dentry.DecRef` without the trailing parent call:
locks `fs.mu` for writing, decrements the count and, on the transition
to zero, releases the inode reference taken by `Init`, nils the inode,
and under `parent.dirMu` removes this dentry from the parent's child map
if still present (it may already have been removed by invalidation),
notifying the VFS layer of the invalidated dentry.  Returns the new
world, the activation's event trace (from `lockTree` to `unlockTree`),
and the parent whose reference is to be dropped after `fs.mu` is
released (`decRefParent`). -/
def decRefActivation (w : World) (d : Nat) : World × List Event × Option Nat :=
  match getD w d with
  | none => (w, [], none)
  | some den =>
    if den.refs = 1 then
      let w1 := match den.inode with
        | some i => updI w i (fun ino => { ino with refs := ino.refs - 1 })
        | none => w
      let inoEv : List Event := match den.inode with
        | some _ => [Event.inodeDecRef d]
        | none => []
      let w2 := setD w1 d { den with refs := 0, inode := none }
      match den.parent with
      | some p =>
        let present := match getD w2 p with
          | some pden => (mLookup pden.children den.name).isSome
          | none => false
        let w3 := if present then
            updD w2 p (fun pden => { pden with children := mDelete pden.children den.name })
          else w2
        let remEv : List Event := if present then
            [Event.removeChild p den.name, Event.invalidateDentry d]
          else []
        (w3, [Event.lockTree, Event.decCount d] ++ inoEv ++ [Event.lockDirMu p] ++
          remEv ++ [Event.unlockDirMu p, Event.unlockTree], some p)
      | none =>
        (w2, [Event.lockTree, Event.decCount d] ++ inoEv ++ [Event.unlockTree], none)
    else
      (updD w d (fun den => { den with refs := den.refs - 1 }),
        [Event.lockTree, Event.decCount d, Event.unlockTree], none)

/-- `Dentry.DecRef(ctx)`: the activation above followed, once `fs.mu` is
dropped, by a recursive `DecRef` on the parent when the count reached
zero.  The parent chain is walked with explicit fuel (the chain is
finite in every reachable heap). -/
def decRef : Nat → World → Nat → World × List Event
  | 0, w, _ => (w, [])
  | Nat.succ fuel, w, d =>
    let r := decRefActivation w d
    match r.2.2 with
    | some p =>
      let r2 := decRef fuel r.1 p
      (r2.1, r.2.1 ++ r2.2)
    | none => (r.1, r.2.1)

/-- `Filesystem.deferDecRef(d)`: appends the dentry to
`droppedDentries` under `droppedDentriesMu`; no reference count is
touched. -/
def deferDecRef (w : World) (d : Nat) : World :=
  { w with droppedDentries := w.droppedDentries ++ [d] }

/-- The deferred `d.DecRef(ctx)` calls issued while draining the queue:
one call per queued entry, each marked by a `decRefCall` event at the
call site. -/
def runDecRefs : Nat → World → List Nat → World × List Event
  | _, w, [] => (w, [])
  | fuel, w, d :: ds =>
    let r := decRef fuel w d
    let r2 := runDecRefs fuel r.1 ds
    (r2.1, Event.decRefCall d :: (r.2 ++ r2.2))

/-- `Filesystem.processDeferredDecRefs(ctx)`: under `droppedDentriesMu`
resets the queue to empty; the deferred `DecRef` calls (scheduled with
`defer`, hence run in reverse queue order) execute after the unlock. -/
def processDeferredDecRefs (fuel : Nat) (w : World) : World × List Event :=
  let q := w.droppedDentries
  let w1 := { w with droppedDentries := [] }
  let r := runDecRefs fuel w1 q.reverse
  (r.1, [Event.lockQueue, Event.resetQueue, Event.unlockQueue] ++ r.2)

/-- `Filesystem.NextIno()`: `atomic.AddUint64(&fs.nextInoMinusOne, 1)`,
returning the incremented value. -/
def NextIno (w : World) : Nat × World :=
  let v := (w.nextInoMinusOne + 1) % 2 ^ 64
  (v, { w with nextInoMinusOne := v })

/-- The filesystem state after `n` calls to `NextIno`. -/
def nextInoIter (w : World) : Nat → World
  | 0 => w
  | Nat.succ n => (NextIno (nextInoIter w n)).2

/-- `isSymlink` on a heap dentry; false on a dangling identifier. -/
def isSymlinkW (w : World) (d : Nat) : Bool :=
  match getD w d with
  | some den => den.isSymlink
  | none => false

/-- The cached flag word of a heap dentry (observation used to state
that no operation mutates the flags after `Init`). -/
def flagsW (w : World) (x : Nat) : Option Nat := (getD w x).map DentryS.flags

/-- The revisions of the registered targets sharing a name and network
protocol (read off the makers' `id()`, as the `targetRevision` loop
does). -/
def revsFor (reg : TargetRegistry) (name : String) (netProto : Nat) : List Nat :=
  (reg.filter (fun kv =>
    decide (name = kv.2.id.Name ∧ netProto = kv.2.id.NetworkProtocol))).map
    (fun kv => kv.2.id.Revision)

/-- The highest revision registered for a name and network protocol
(zero when none is). -/
def highestRevision (reg : TargetRegistry) (name : String) (netProto : Nat) : Nat :=
  (revsFor reg name netProto).foldl max 0

/-- Number of `decRefCall x` events in a trace. -/
def countCall (x : Nat) : List Event → Nat
  | [] => 0
  | Event.decRefCall y :: t => (if y = x then 1 else 0) + countCall x t
  | _ :: t => countCall x t

/-- Number of occurrences of `x` in a list of dentry identifiers. -/
def countOcc (x : Nat) : List Nat → Nat
  | [] => 0
  | y :: t => (if y = x then 1 else 0) + countOcc x t

/-! ### Concrete instances used by the witness theorems -/

/-- A directory dentry holding one reference, pointing at inode 0. -/
def dirDentry : DentryS :=
  { refs := 1, flags := 1, parent := none, name := "", children := [],
    inode := some 0 }

/-- A non-directory dentry holding one reference, pointing at inode 1. -/
def fileDentry : DentryS :=
  { refs := 1, flags := 0, parent := none, name := "", children := [],
    inode := some 1 }

/-- A two-dentry world: dentry 0 a directory, dentry 1 a regular file,
neither linked yet. -/
def worldA : World :=
  { dentries := [(0, dirDentry), (1, fileDentry)],
    inodes := [(0, { refs := 1, mode := 0x4000 }), (1, { refs := 1, mode := 0x8000 })],
    droppedDentries := [], nextInoMinusOne := 0 }

/-- `worldA` after inserting dentry 1 under dentry 0 with name `a`. -/
def worldB : World := (insertChild worldA 0 "a" 1).1

/-- `worldB` with the child already invalidated: name `a` has been
removed from the parent's child map, the counted edges unchanged. -/
def worldC : World :=
  { dentries := [(0, { dirDentry with refs := 2 }),
     (1, { fileDentry with parent := some 0, name := "a" })],
    inodes := [(0, { refs := 1, mode := 0x4000 }), (1, { refs := 1, mode := 0x8000 })],
    droppedDentries := [], nextInoMinusOne := 0 }

/-- A matchMaker with trivial behaviour, for witness registries. -/
def mmX : MatchMaker :=
  { name := "x", marshal := fun _ => [], unmarshal := fun _ _ => GoResult.err "e" }

/-- A targetMaker with the given id and trivial behaviour. -/
def tmOf (tid : TargetID) : TargetMaker :=
  { id := tid, marshal := fun _ => [],
    unmarshal := fun _ _ => GoResult.err (Syserr.other "e") }

/-- A target registry with revisions 0 and 2 of target `t` for protocol
6, and revision 9 of an unrelated target `u`. -/
def regT : TargetRegistry :=
  [(⟨"t", 6, 0⟩, tmOf ⟨"t", 6, 0⟩), (⟨"t", 6, 2⟩, tmOf ⟨"t", 6, 2⟩),
   (⟨"u", 6, 9⟩, tmOf ⟨"u", 6, 9⟩)]

/-! ## Association-map lemmas -/

theorem mLookup_mInsert_self {α β : Type} [DecidableEq α]
    (l : List (α × β)) (k : α) (v : β) :
    mLookup (mInsert l k v) k = some v := by
  induction l with
  | nil => simp [mInsert, mLookup]
  | cons hd t ih =>
    obtain ⟨a, b⟩ := hd
    by_cases h : a = k
    · simp [mInsert, mLookup, h]
    · simp [mInsert, mLookup, h, ih]

theorem mLookup_mInsert_ne {α β : Type} [DecidableEq α]
    (l : List (α × β)) (k k' : α) (v : β) (h : k ≠ k') :
    mLookup (mInsert l k v) k' = mLookup l k' := by
  induction l with
  | nil => simp [mInsert, mLookup, h]
  | cons hd t ih =>
    obtain ⟨a, b⟩ := hd
    by_cases ha : a = k
    · subst ha
      simp [mInsert, mLookup, h]
    · by_cases ha' : a = k'
      · subst ha'
        simp [mInsert, mLookup, ha]
      · simp [mInsert, mLookup, ha, ha', ih]

theorem getD_setD_self (w : World) (d : Nat) (den : DentryS) :
    getD (setD w d den) d = some den :=
  mLookup_mInsert_self _ _ _

theorem getD_setD_ne (w : World) (d x : Nat) (den : DentryS) (h : d ≠ x) :
    getD (setD w d den) x = getD w x :=
  mLookup_mInsert_ne _ _ _ _ h

theorem setD_inodes (w : World) (d : Nat) (den : DentryS) :
    (setD w d den).inodes = w.inodes := rfl

theorem updI_dentries (w : World) (i : Nat) (f : InodeS → InodeS) :
    (updI w i f).dentries = w.dentries := by
  unfold updI
  cases getI w i <;> rfl

theorem getD_updI (w : World) (i : Nat) (f : InodeS → InodeS) (x : Nat) :
    getD (updI w i f) x = getD w x := by
  unfold getD
  rw [updI_dentries]

theorem updD_dropped (w : World) (d : Nat) (f : DentryS → DentryS) :
    (updD w d f).droppedDentries = w.droppedDentries := by
  unfold updD
  cases getD w d <;> rfl

theorem updD_nextIno (w : World) (d : Nat) (f : DentryS → DentryS) :
    (updD w d f).nextInoMinusOne = w.nextInoMinusOne := by
  unfold updD
  cases getD w d <;> rfl

theorem updD_inodes (w : World) (d : Nat) (f : DentryS → DentryS) :
    (updD w d f).inodes = w.inodes := by
  unfold updD
  cases getD w d <;> rfl

theorem updI_dropped (w : World) (i : Nat) (f : InodeS → InodeS) :
    (updI w i f).droppedDentries = w.droppedDentries := by
  unfold updI
  cases getI w i <;> rfl

theorem updI_nextIno (w : World) (i : Nat) (f : InodeS → InodeS) :
    (updI w i f).nextInoMinusOne = w.nextInoMinusOne := by
  unfold updI
  cases getI w i <;> rfl

theorem decRefActivation_dropped (w : World) (d : Nat) :
    ((decRefActivation w d).1).droppedDentries = w.droppedDentries := by
  unfold decRefActivation
  cases hd : getD w d with
  | none => rfl
  | some den =>
    dsimp
    split
    · cases h1 : den.inode <;> cases h2 : den.parent <;> dsimp <;> (try split) <;>
        simp [setD, updD_dropped, updI_dropped]
    · simp [updD_dropped]

theorem decRefActivation_nextIno (w : World) (d : Nat) :
    ((decRefActivation w d).1).nextInoMinusOne = w.nextInoMinusOne := by
  unfold decRefActivation
  cases hd : getD w d with
  | none => rfl
  | some den =>
    dsimp
    split
    · cases h1 : den.inode <;> cases h2 : den.parent <;> dsimp <;> (try split) <;>
        simp [setD, updD_nextIno, updI_nextIno]
    · simp [updD_nextIno]

theorem decRef_dropped (fuel : Nat) (w : World) (d : Nat) :
    ((decRef fuel w d).1).droppedDentries = w.droppedDentries := by
  induction fuel generalizing w d with
  | zero => rfl
  | succ n ih =>
    unfold decRef
    cases hp : (decRefActivation w d).2.2 with
    | none =>
      simp only [hp]
      exact decRefActivation_dropped w d
    | some p =>
      simp only [hp]
      rw [ih, decRefActivation_dropped]

theorem decRef_nextIno (fuel : Nat) (w : World) (d : Nat) :
    ((decRef fuel w d).1).nextInoMinusOne = w.nextInoMinusOne := by
  induction fuel generalizing w d with
  | zero => rfl
  | succ n ih =>
    unfold decRef
    cases hp : (decRefActivation w d).2.2 with
    | none =>
      simp only [hp]
      exact decRefActivation_nextIno w d
    | some p =>
      simp only [hp]
      rw [ih, decRefActivation_nextIno]

theorem decRefActivation_no_decRefCall (w : World) (d x : Nat) :
    Event.decRefCall x ∉ (decRefActivation w d).2.1 := by
  unfold decRefActivation
  cases hd : getD w d with
  | none => simp
  | some den =>
    dsimp
    split
    · cases h1 : den.inode <;> cases h2 : den.parent <;> dsimp <;> (try split) <;> simp
    · simp

theorem decRef_no_decRefCall (fuel : Nat) (w : World) (d x : Nat) :
    Event.decRefCall x ∉ (decRef fuel w d).2 := by
  induction fuel generalizing w d with
  | zero => simp [decRef]
  | succ n ih =>
    unfold decRef
    cases hp : (decRefActivation w d).2.2 with
    | none =>
      simp only [hp]
      exact decRefActivation_no_decRefCall w d x
    | some p =>
      simp only [hp]
      try dsimp
      rw [List.mem_append]
      push_neg
      exact ⟨decRefActivation_no_decRefCall w d x, ih _ _⟩

theorem decRefActivation_trace_head (w : World) (p : Nat) (pden : DentryS)
    (h : getD w p = some pden) :
    ∃ tail, (decRefActivation w p).2.1 = Event.lockTree :: Event.decCount p :: tail := by
  unfold decRefActivation
  rw [h]
  dsimp
  split
  · cases h1 : pden.inode <;> cases h2 : pden.parent <;> dsimp <;> (try split) <;>
      exact ⟨_, rfl⟩
  · exact ⟨_, rfl⟩

theorem decRef_trace_head (m : Nat) (w : World) (p : Nat) (pden : DentryS)
    (h : getD w p = some pden) :
    ∃ tail, (decRef (Nat.succ m) w p).2 = Event.lockTree :: Event.decCount p :: tail := by
  obtain ⟨t, ht⟩ := decRefActivation_trace_head w p pden h
  unfold decRef
  cases hp : (decRefActivation w p).2.2 with
  | none =>
    simp only [hp]
    exact ⟨t, ht⟩
  | some q =>
    simp only [hp]
    try dsimp
    rw [ht]
    exact ⟨_, rfl⟩

theorem flagsW_setD (w : World) (a : Nat) (den' : DentryS) (x : Nat) (den : DentryS)
    (h : getD w a = some den) (hf : den'.flags = den.flags) :
    flagsW (setD w a den') x = flagsW w x := by
  unfold flagsW
  by_cases hx : a = x
  · subst hx
    rw [getD_setD_self, h]
    simp [hf]
  · rw [getD_setD_ne _ _ _ _ hx]

theorem flagsW_updD (w : World) (a : Nat) (f : DentryS → DentryS) (x : Nat)
    (hf : ∀ den, (f den).flags = den.flags) :
    flagsW (updD w a f) x = flagsW w x := by
  unfold updD
  cases h : getD w a with
  | none => rfl
  | some den => exact flagsW_setD w a (f den) x den h (hf den)

theorem flagsW_updI (w : World) (i : Nat) (f : InodeS → InodeS) (x : Nat) :
    flagsW (updI w i f) x = flagsW w x := by
  unfold flagsW
  rw [getD_updI]

theorem flagsW_decRefActivation (w : World) (d x : Nat) :
    flagsW ((decRefActivation w d).1) x = flagsW w x := by
  unfold decRefActivation
  cases hd : getD w d with
  | none => rfl
  | some den =>
    dsimp
    split
    · cases h1 : den.inode with
      | none =>
        cases h2 : den.parent with
        | none =>
          dsimp
          exact flagsW_setD w d _ x den hd rfl
        | some p =>
          dsimp
          split <;>
            first
            | exact (flagsW_updD _ p
                (fun pden => { pden with children := mDelete pden.children den.name })
                x (fun _ => rfl)).trans
                (flagsW_setD w d ⟨0, den.flags, some p, den.name, den.children, none⟩
                  x den hd rfl)
            | exact flagsW_setD w d ⟨0, den.flags, some p, den.name, den.children, none⟩
                x den hd rfl
      | some i =>
        have hd' : getD (updI w i fun ino => { ino with refs := ino.refs - 1 }) d
            = some den := by
          rw [getD_updI]
          exact hd
        cases h2 : den.parent with
        | none =>
          dsimp
          exact (flagsW_setD _ d ⟨0, den.flags, none, den.name, den.children, none⟩
            x den hd' rfl).trans (flagsW_updI _ _ _ _)
        | some p =>
          dsimp
          split <;>
            first
            | exact (flagsW_updD _ p
                (fun pden => { pden with children := mDelete pden.children den.name })
                x (fun _ => rfl)).trans
                ((flagsW_setD _ d ⟨0, den.flags, some p, den.name, den.children, none⟩
                  x den hd' rfl).trans (flagsW_updI _ _ _ _))
            | exact (flagsW_setD _ d ⟨0, den.flags, some p, den.name, den.children, none⟩
                x den hd' rfl).trans (flagsW_updI _ _ _ _)
    · exact flagsW_updD w d _ x (fun den => rfl)

theorem flagsW_decRef (fuel : Nat) (w : World) (d x : Nat) :
    flagsW ((decRef fuel w d).1) x = flagsW w x := by
  induction fuel generalizing w d with
  | zero => rfl
  | succ n ih =>
    unfold decRef
    cases hp : (decRefActivation w d).2.2 with
    | none =>
      simp only [hp]
      exact flagsW_decRefActivation w d x
    | some p =>
      simp only [hp]
      try dsimp
      rw [ih, flagsW_decRefActivation]

theorem flagsW_runDecRefs (fuel : Nat) (w : World) (l : List Nat) (x : Nat) :
    flagsW ((runDecRefs fuel w l).1) x = flagsW w x := by
  induction l generalizing w with
  | nil => rfl
  | cons d ds ih =>
    unfold runDecRefs
    dsimp
    rw [ih, flagsW_decRef]

theorem flagsW_insertChildLocked (w : World) (d : Nat) (name : String) (c x : Nat) :
    flagsW ((insertChildLocked w d name c).1) x = flagsW w x := by
  unfold insertChildLocked
  split
  · exact (flagsW_updD _ d
      (fun den => { den with children := mInsert den.children name c }) x
      (fun _ => rfl)).trans
      ((flagsW_updD _ c (fun cden => { cden with parent := some d, name := name }) x
        (fun _ => rfl)).trans
        (flagsW_updD w d (fun den => { den with refs := den.refs + 1 }) x (fun _ => rfl)))
  · rfl

theorem countCall_append (x : Nat) (a b : List Event) :
    countCall x (a ++ b) = countCall x a + countCall x b := by
  induction a with
  | nil => simp [countCall]
  | cons hd t ih =>
    cases hd <;> simp [countCall, ih] <;> omega

theorem countCall_eq_zero (x : Nat) (t : List Event)
    (h : Event.decRefCall x ∉ t) : countCall x t = 0 := by
  induction t with
  | nil => rfl
  | cons hd tl ih =>
    rw [List.mem_cons] at h
    push_neg at h
    cases hd with
    | decRefCall y =>
      have hy : y ≠ x := by
        intro he
        exact h.1 (by rw [he])
      simp [countCall, hy, ih h.2]
    | _ => simp [countCall, ih h.2]

theorem runDecRefs_count (fuel : Nat) (w : World) (l : List Nat) (x : Nat) :
    countCall x ((runDecRefs fuel w l).2) = countOcc x l := by
  induction l generalizing w with
  | nil => rfl
  | cons d ds ih =>
    unfold runDecRefs
    dsimp
    rw [countCall, countCall_append,
      countCall_eq_zero x _ (decRef_no_decRefCall fuel w d x), ih]
    simp [countOcc]

theorem countOcc_append (x : Nat) (a b : List Nat) :
    countOcc x (a ++ b) = countOcc x a + countOcc x b := by
  induction a with
  | nil => simp [countOcc]
  | cons hd t ih =>
    simp [countOcc, ih]
    omega

theorem countOcc_reverse (x : Nat) (l : List Nat) :
    countOcc x l.reverse = countOcc x l := by
  induction l with
  | nil => rfl
  | cons hd t ih =>
    rw [List.reverse_cons, countOcc_append, ih]
    simp [countOcc]
    omega

theorem runDecRefs_dropped (fuel : Nat) (w : World) (l : List Nat) :
    ((runDecRefs fuel w l).1).droppedDentries = w.droppedDentries := by
  induction l generalizing w with
  | nil => rfl
  | cons d ds ih =>
    unfold runDecRefs
    dsimp
    rw [ih, decRef_dropped]

theorem foldl_max_shift (l : List Nat) :
    ∀ a b : Nat, List.foldl max (max a b) l = max a (List.foldl max b l) := by
  induction l with
  | nil => intro a b; rfl
  | cons x t ih =>
    intro a b
    rw [List.foldl_cons, List.foldl_cons, Nat.max_assoc, ih]

theorem foldl_max_init (l : List Nat) (a : Nat) :
    List.foldl max a l = max a (List.foldl max 0 l) := by
  have h := foldl_max_shift l a 0
  rw [Nat.max_zero] at h
  exact h

theorem targetRevision_loop (name : String) (netProto : Nat) (l : TargetRegistry) :
    ∀ r : Nat,
      l.foldl (fun r kv =>
        if name = kv.2.id.Name ∧ netProto = kv.2.id.NetworkProtocol ∧ kv.2.id.Revision > r
        then kv.2.id.Revision else r) r
      = List.foldl max r (revsFor l name netProto) := by
  induction l with
  | nil => intro r; rfl
  | cons kv t ih =>
    intro r
    rw [List.foldl_cons]
    by_cases hm : name = kv.2.id.Name ∧ netProto = kv.2.id.NetworkProtocol
    · have hstep : (if name = kv.2.id.Name ∧ netProto = kv.2.id.NetworkProtocol ∧
          kv.2.id.Revision > r then kv.2.id.Revision else r) = max r kv.2.id.Revision := by
        by_cases hgt : kv.2.id.Revision > r
        · rw [if_pos ⟨hm.1, hm.2, hgt⟩]
          omega
        · rw [if_neg (by tauto)]
          omega
      rw [hstep, ih]
      unfold revsFor
      rw [List.filter_cons_of_pos (by simp [hm.1, hm.2]), List.map_cons, List.foldl_cons]
    · have hstep : (if name = kv.2.id.Name ∧ netProto = kv.2.id.NetworkProtocol ∧
          kv.2.id.Revision > r then kv.2.id.Revision else r) = r := by
        rw [if_neg (by tauto)]
      rw [hstep, ih]
      unfold revsFor
      rw [List.filter_cons_of_neg (by simpa using hm)]

theorem nextInoIter_counter (w : World) (h : w.nextInoMinusOne = 0) :
    ∀ n : Nat, (nextInoIter w n).nextInoMinusOne = n % 2 ^ 64 := by
  intro n
  induction n with
  | zero => simpa [nextInoIter] using h
  | succ k ih =>
    show (NextIno (nextInoIter w k)).2.nextInoMinusOne = (k + 1) % 2 ^ 64
    unfold NextIno
    dsimp
    rw [ih]
    omega

theorem getI_setD (w : World) (a : Nat) (den : DentryS) (x : Nat) :
    getI (setD w a den) x = getI w x := rfl

theorem getD_updD_ne (w : World) (a : Nat) (f : DentryS → DentryS) (x : Nat)
    (h : a ≠ x) : getD (updD w a f) x = getD w x := by
  unfold updD
  cases ha : getD w a with
  | none => rfl
  | some den => exact getD_setD_ne _ _ _ _ h

theorem getI_updD (w : World) (a : Nat) (f : DentryS → DentryS) (x : Nat) :
    getI (updD w a f) x = getI w x := by
  unfold getI
  rw [updD_inodes]

theorem getI_updI_self (w : World) (i : Nat) (f : InodeS → InodeS) (ino : InodeS)
    (h : getI w i = some ino) : getI (updI w i f) i = some (f ino) := by
  unfold updI
  rw [h]
  exact mLookup_mInsert_self _ _ _

theorem insertChildLocked_nextIno (w : World) (d : Nat) (name : String) (c : Nat) :
    ((insertChildLocked w d name c).1).nextInoMinusOne = w.nextInoMinusOne := by
  unfold insertChildLocked
  split
  · simp [updD_nextIno]
  · rfl

theorem runDecRefs_nextIno (fuel : Nat) (w : World) (l : List Nat) :
    ((runDecRefs fuel w l).1).nextInoMinusOne = w.nextInoMinusOne := by
  induction l generalizing w with
  | nil => rfl
  | cons d ds ih =>
    unfold runDecRefs
    dsimp
    rw [ih, decRef_nextIno]

/-! ## Claim theorems -/

/-- Claim C4 (code bug): `marshalEntryMatch(name, data)` is documented to
return the marshalled header followed by the data and zero padding, with
total length `AlignUp(SizeOfXTEntryMatch+len(data), 8)`; the function as
written instead returns `append(buf[size-padLen:], make([]byte, padLen)...)`,
i.e. twice the padding and nothing else.  At name `"tcp"` and data
`[1, 2]` the code yields 12 zero bytes where the documented result is the
40-byte marshalled buffer. -/
theorem C4_marshalEntryMatch_code_bug :
    marshalEntryMatch [116, 99, 112] [1, 2] = List.replicate 12 0 ∧
    (marshalEntryMatch [116, 99, 112] [1, 2]).length = 12 ∧
    alignUp (SizeOfXTEntryMatch + 2) 8 = 40 ∧
    (marshalEntryMatchDocumented [116, 99, 112] [1, 2]).length = 40 ∧
    marshalEntryMatch [116, 99, 112] [1, 2]
      ≠ marshalEntryMatchDocumented [116, 99, 112] [1, 2] := by
  decide

/-- Claim C10: unmarshalling an unregistered extension is a recoverable
error (`unmarshalMatcher` a non-nil error, `unmarshalTarget`
`ErrInvalidArgument`), while `marshalMatcher` and `marshalTarget` panic
on an unregistered name or `TargetID`. -/
theorem C10_unregistered_extension_results :
    (∀ (reg : MatchRegistry) (m : XTEntryMatch) (f : IPHeaderFilter) (buf : List Nat),
      mLookup reg m.Name = none →
      unmarshalMatcher reg m f buf
        = GoResult.err ("unsupported matcher with name " ++ m.Name)) ∧
    (∀ (reg : TargetRegistry) (t : XTEntryTarget) (f : IPHeaderFilter) (buf : List Nat),
      mLookup reg ⟨t.Name, f.NetworkProtocol, t.Revision⟩ = none →
      unmarshalTarget reg t f buf = GoResult.err Syserr.invalidArgument) ∧
    (∀ (reg : MatchRegistry) (m : StackMatcher),
      mLookup reg m.Name = none →
      marshalMatcher reg m = GoResult.panicked "Unknown matcher") ∧
    (∀ (reg : TargetRegistry) (t : StackTarget),
      mLookup reg t.ID = none →
      marshalTarget reg t = GoResult.panicked "unknown target") := by
  refine ⟨?_, ?_, ?_, ?_⟩
  · intro reg m f buf h
    unfold unmarshalMatcher
    rw [h]
  · intro reg t f buf h
    unfold unmarshalTarget
    dsimp
    rw [h]
  · intro reg m h
    unfold marshalMatcher
    rw [h]
  · intro reg t h
    unfold marshalTarget
    rw [h]

/-- Witness for C10 at concrete inputs: empty registries. -/
theorem C10_witness :
    unmarshalMatcher [] { MatchSize := 0, Name := "x", Revision := 0 }
      { NetworkProtocol := 6 } [] = GoResult.err "unsupported matcher with name x" ∧
    unmarshalTarget [] { Name := "x", Revision := 0 } { NetworkProtocol := 6 } []
      = GoResult.err Syserr.invalidArgument ∧
    marshalMatcher [] { Name := "x" } = GoResult.panicked "Unknown matcher" ∧
    marshalTarget [] { ID := { Name := "x", NetworkProtocol := 6, Revision := 0 } }
      = GoResult.panicked "unknown target" :=
  ⟨C10_unregistered_extension_results.1 [] _ _ [] rfl,
   C10_unregistered_extension_results.2.1 [] _ _ [] rfl,
   C10_unregistered_extension_results.2.2.1 [] _ rfl,
   C10_unregistered_extension_results.2.2.2 [] _ rfl⟩

/-- Claim C9: `targetRevision(name, netProto, rev)` returns `(0, false)`
when the exact `TargetID` is unregistered, and otherwise `(r, true)`
with `r` the maximum of `rev` and the highest revision registered for
that name and network protocol. -/
theorem C9_targetRevision_spec :
    (∀ (reg : TargetRegistry) (name : String) (netProto rev : Nat),
      mLookup reg { Name := name, NetworkProtocol := netProto, Revision := rev } = none →
      targetRevision reg name netProto rev = (0, false)) ∧
    (∀ (reg : TargetRegistry) (name : String) (netProto rev : Nat) (tm : TargetMaker),
      mLookup reg { Name := name, NetworkProtocol := netProto, Revision := rev } = some tm →
      targetRevision reg name netProto rev
        = (max rev (highestRevision reg name netProto), true)) := by
  constructor
  · intro reg name netProto rev h
    unfold targetRevision
    dsimp only
    rw [h]
  · intro reg name netProto rev tm h
    unfold targetRevision
    dsimp only
    rw [h]
    dsimp only
    rw [targetRevision_loop, foldl_max_init]
    rfl

/-- Witness for C9 at a concrete registry: target `t`/protocol 6 is
registered with revisions 0 and 2 (and an unrelated `u` with revision
9), so revision queries for `t` resolve to 2, and an unregistered exact
revision yields `(0, false)`. -/
theorem C9_witness :
    targetRevision regT "t" 6 0 = (max 0 (highestRevision regT "t" 6), true) ∧
    highestRevision regT "t" 6 = 2 ∧
    targetRevision regT "t" 6 1 = (0, false) ∧
    targetRevision regT "v" 6 0 = (0, false) :=
  ⟨C9_targetRevision_spec.2 regT "t" 6 0 (tmOf ⟨"t", 6, 0⟩) rfl, rfl,
   C9_targetRevision_spec.1 regT "t" 6 1 rfl,
   C9_targetRevision_spec.1 regT "v" 6 0 rfl⟩

/-- Claim C6: `insertChildLocked` panics iff the dentry is not a
directory, `registerMatchMaker` panics iff the name is already
registered, `registerTargetMaker` panics iff the `TargetID` is already
registered; in each panic case the world or registry is unmodified. -/
theorem C6_invariant_violations_fatal :
    (∀ (w : World) (d : Nat) (name : String) (child : Nat),
      ((insertChildLocked w d name child).2.isSome = true ↔ isDirW w d = false) ∧
      (isDirW w d = false → (insertChildLocked w d name child).1 = w)) ∧
    (∀ (reg : MatchRegistry) (mm : MatchMaker),
      ((registerMatchMaker reg mm).2.isSome = true ↔ (mLookup reg mm.name).isSome = true) ∧
      ((mLookup reg mm.name).isSome = true → (registerMatchMaker reg mm).1 = reg)) ∧
    (∀ (reg : TargetRegistry) (tm : TargetMaker),
      ((registerTargetMaker reg tm).2.isSome = true ↔ (mLookup reg tm.id).isSome = true) ∧
      ((mLookup reg tm.id).isSome = true → (registerTargetMaker reg tm).1 = reg)) := by
  refine ⟨?_, ?_, ?_⟩
  · intro w d name child
    unfold insertChildLocked
    cases hdir : isDirW w d <;> simp [hdir]
  · intro reg mm
    unfold registerMatchMaker
    cases h : mLookup reg mm.name <;> simp [h]
  · intro reg tm
    unfold registerTargetMaker
    cases h : mLookup reg tm.id <;> simp [h]

/-- Witness for C6 at concrete inputs: inserting under the
non-directory dentry 1 of `worldA` panics and leaves the world
unchanged; re-registering name `x` (resp. TargetID `t/6/0`) panics and
leaves the registry unchanged. -/
theorem C6_witness :
    (insertChildLocked worldA 1 "z" 0).2.isSome = true ∧
    (insertChildLocked worldA 1 "z" 0).1 = worldA ∧
    (registerMatchMaker [("x", mmX)] mmX).2.isSome = true ∧
    (registerMatchMaker [("x", mmX)] mmX).1 = [("x", mmX)] ∧
    (registerTargetMaker regT (tmOf ⟨"t", 6, 0⟩)).2.isSome = true ∧
    (registerTargetMaker regT (tmOf ⟨"t", 6, 0⟩)).1 = regT :=
  ⟨(C6_invariant_violations_fatal.1 worldA 1 "z" 0).1.mpr (by decide),
   (C6_invariant_violations_fatal.1 worldA 1 "z" 0).2 (by decide),
   (C6_invariant_violations_fatal.2.1 [("x", mmX)] mmX).1.mpr rfl,
   (C6_invariant_violations_fatal.2.1 [("x", mmX)] mmX).2 rfl,
   (C6_invariant_violations_fatal.2.2 regT (tmOf ⟨"t", 6, 0⟩)).1.mpr rfl,
   (C6_invariant_violations_fatal.2.2 regT (tmOf ⟨"t", 6, 0⟩)).2 rfl⟩

/-- Claim C1: after `insertChild(d, name, child)` on a directory `d`
(distinct from `child`), `d`'s child map maps `name` to `child`,
`child.parent = d`, `child.name = name`, `d`'s reference count is one
greater, and `child`'s own reference count is unchanged. -/
theorem C1_insertChild_spec :
    ∀ (w : World) (d child : Nat) (name : String) (dden cden : DentryS),
      getD w d = some dden → getD w child = some cden →
      dden.isDir = true → d ≠ child →
      (insertChild w d name child).2 = none ∧
      getD (insertChild w d name child).1 d
        = some { dden with
            refs := dden.refs + 1, children := mInsert dden.children name child } ∧
      getD (insertChild w d name child).1 child
        = some { cden with parent := some d, name := name } ∧
      mLookup (mInsert dden.children name child) name = some child := by
  intro w d child name dden cden hd hc hdir hne
  have hdirW : isDirW w d = true := by
    unfold isDirW
    rw [hd]
    exact hdir
  unfold insertChild insertChildLocked
  rw [if_pos hdirW]
  dsimp only
  have e1 : updD w d (fun den => { den with refs := den.refs + 1 })
      = setD w d { dden with refs := dden.refs + 1 } := by
    unfold updD
    rw [hd]
  rw [e1]
  have hc1 : getD (setD w d { dden with refs := dden.refs + 1 }) child = some cden := by
    rw [getD_setD_ne _ _ _ _ hne]
    exact hc
  have e2 : updD (setD w d { dden with refs := dden.refs + 1 }) child
      (fun cden => { cden with parent := some d, name := name })
      = setD (setD w d { dden with refs := dden.refs + 1 }) child
          { cden with parent := some d, name := name } := by
    unfold updD
    rw [hc1]
  rw [e2]
  have hd2 : getD (setD (setD w d { dden with refs := dden.refs + 1 }) child
      { cden with parent := some d, name := name }) d
      = some { dden with refs := dden.refs + 1 } := by
    rw [getD_setD_ne _ _ _ _ (Ne.symm hne), getD_setD_self]
  have e3 : updD (setD (setD w d { dden with refs := dden.refs + 1 }) child
      { cden with parent := some d, name := name }) d
      (fun den => { den with children := mInsert den.children name child })
      = setD (setD (setD w d { dden with refs := dden.refs + 1 }) child
          { cden with parent := some d, name := name }) d
          { dden with
            refs := dden.refs + 1, children := mInsert dden.children name child } := by
    unfold updD
    rw [hd2]
  rw [e3]
  refine ⟨rfl, ?_, ?_, mLookup_mInsert_self _ _ _⟩
  · rw [getD_setD_self]
  · rw [getD_setD_ne _ _ _ _ hne, getD_setD_self]

/-- Witness for C1: inserting the file dentry 1 under the directory
dentry 0 of `worldA`. -/
theorem C1_witness :
    (insertChild worldA 0 "a" 1).2 = none ∧
    getD (insertChild worldA 0 "a" 1).1 0
      = some { dirDentry with
          refs := dirDentry.refs + 1, children := mInsert dirDentry.children "a" 1 } ∧
    getD (insertChild worldA 0 "a" 1).1 1
      = some { fileDentry with parent := some 0, name := "a" } ∧
    mLookup (mInsert dirDentry.children "a" 1) "a" = some 1 :=
  C1_insertChild_spec worldA 0 1 "a" dirDentry fileDentry rfl rfl rfl (by decide)

/-- Claim C3: `deferDecRef` appends to the deferred-destruction queue
without touching any reference count; `processDeferredDecRefs` resets
the queue to empty between taking and releasing the queue lock, and
issues exactly one `DecRef` call per queued entry, all of them after
the queue lock is released. -/
theorem C3_deferred_decrefs :
    (∀ (w : World) (d : Nat),
      (deferDecRef w d).droppedDentries = w.droppedDentries ++ [d] ∧
      (deferDecRef w d).dentries = w.dentries ∧
      (deferDecRef w d).inodes = w.inodes) ∧
    (∀ (fuel : Nat) (w : World),
      ((processDeferredDecRefs fuel w).1).droppedDentries = [] ∧
      ∃ rest, (processDeferredDecRefs fuel w).2
          = [Event.lockQueue, Event.resetQueue, Event.unlockQueue] ++ rest ∧
        ∀ x : Nat, countCall x rest = countOcc x w.droppedDentries) := by
  constructor
  · intro w d
    exact ⟨rfl, rfl, rfl⟩
  · intro fuel w
    constructor
    · show ((runDecRefs fuel { w with droppedDentries := [] }
        w.droppedDentries.reverse).1).droppedDentries = []
      rw [runDecRefs_dropped]
    · refine ⟨(runDecRefs fuel { w with droppedDentries := [] }
        w.droppedDentries.reverse).2, rfl, ?_⟩
      intro x
      rw [runDecRefs_count, countOcc_reverse]

/-- Claim C7: for an entry already removed from its parent's child map,
the map-removal step inside `DecRef`'s zero transition is a no-op: the
parent's entry (and child map) is unchanged and no removal or
invalidation notification occurs. -/
theorem C7_invalidation_idempotent :
    ∀ (w : World) (d p i : Nat) (den pden : DentryS),
      getD w d = some den → den.refs = 1 → den.inode = some i →
      den.parent = some p → p ≠ d → getD w p = some pden →
      mLookup pden.children den.name = none →
      getD (decRefActivation w d).1 p = some pden ∧
      (decRefActivation w d).2.1
        = [Event.lockTree, Event.decCount d, Event.inodeDecRef d,
           Event.lockDirMu p, Event.unlockDirMu p, Event.unlockTree] ∧
      (decRefActivation w d).2.2 = some p := by
  intro w d p i den pden hd hrefs hi hp hpd hgp hlook
  have hw2p : getD (setD (updI w i fun ino => { ino with refs := ino.refs - 1 }) d
      ⟨0, den.flags, some p, den.name, den.children, none⟩) p = some pden := by
    rw [getD_setD_ne _ _ _ _ (Ne.symm hpd), getD_updI]
    exact hgp
  unfold decRefActivation
  rw [hd]
  dsimp only
  rw [if_pos hrefs, hi, hp]
  dsimp only
  rw [hw2p]
  try dsimp only
  rw [hlook]
  try dsimp only
  exact ⟨hw2p, rfl, rfl⟩

/-- Witness for C7: in `worldC` the child dentry 1 (named `a`, last
reference) is already absent from its parent's child map; its `DecRef`
zero transition leaves the parent untouched and emits no removal or
invalidation. -/
theorem C7_witness :
    getD (decRefActivation worldC 1).1 0 = some { dirDentry with refs := 2 } ∧
    (decRefActivation worldC 1).2.1
      = [Event.lockTree, Event.decCount 1, Event.inodeDecRef 1,
         Event.lockDirMu 0, Event.unlockDirMu 0, Event.unlockTree] := by
  have h := C7_invalidation_idempotent worldC 1 0 1
    { fileDentry with parent := some 0, name := "a" }
    { dirDentry with refs := 2 }
    rfl rfl rfl rfl (by decide) rfl rfl
  exact ⟨h.1, h.2.1⟩

/-- Claim C2: when a dentry's reference count reaches zero during
`DecRef`, the count is decremented between taking and releasing the
filesystem lock for writing, the dentry's single inode reference is
released and the inode pointer cleared, the dentry is removed from the
parent's child map only if still present there (with an invalidation
notification to the VFS layer exactly in that case), and the parent's
own reference-count decrement happens only after the filesystem lock
has been released. -/
theorem C2_DecRef_zero_transition :
    ∀ (w : World) (d p i : Nat) (den pden : DentryS) (ino : InodeS) (n : Nat),
      getD w d = some den → den.refs = 1 → den.inode = some i → getI w i = some ino →
      den.parent = some p → p ≠ d → getD w p = some pden →
      (decRefActivation w d).2.2 = some p ∧
      getI (decRefActivation w d).1 i = some { ino with refs := ino.refs - 1 } ∧
      getD (decRefActivation w d).1 d
        = some ⟨0, den.flags, some p, den.name, den.children, none⟩ ∧
      getD (decRefActivation w d).1 p
        = some (if (mLookup pden.children den.name).isSome
            then { pden with children := mDelete pden.children den.name } else pden) ∧
      (∃ rest, (decRef (n + 2) w d).2
        = [Event.lockTree, Event.decCount d, Event.inodeDecRef d, Event.lockDirMu p]
          ++ (if (mLookup pden.children den.name).isSome
              then [Event.removeChild p den.name, Event.invalidateDentry d] else [])
          ++ [Event.unlockDirMu p, Event.unlockTree, Event.lockTree, Event.decCount p]
          ++ rest) := by
  intro w d p i den pden ino n hd hrefs hi hig hp hpd hgp
  have hw1i : getI (updI w i fun ino => { ino with refs := ino.refs - 1 }) i
      = some { ino with refs := ino.refs - 1 } := getI_updI_self w i _ ino hig
  have hw2p : getD (setD (updI w i fun ino => { ino with refs := ino.refs - 1 }) d
      ⟨0, den.flags, some p, den.name, den.children, none⟩) p = some pden := by
    rw [getD_setD_ne _ _ _ _ (Ne.symm hpd), getD_updI]
    exact hgp
  cases hlook : mLookup pden.children den.name with
  | none =>
    have hact : decRefActivation w d
        = (setD (updI w i fun ino => { ino with refs := ino.refs - 1 }) d
            ⟨0, den.flags, some p, den.name, den.children, none⟩,
          [Event.lockTree, Event.decCount d, Event.inodeDecRef d,
           Event.lockDirMu p, Event.unlockDirMu p, Event.unlockTree], some p) := by
      unfold decRefActivation
      rw [hd]
      dsimp only
      rw [if_pos hrefs, hi, hp]
      dsimp only
      rw [hw2p]
      try dsimp only
      rw [hlook]
      rfl
    have hgp3 : getD (decRefActivation w d).1 p = some pden := by
      rw [hact]
      exact hw2p
    refine ⟨by rw [hact], ?_, ?_, ?_, ?_⟩
    · rw [hact]
      exact hw1i
    · rw [hact]
      exact getD_setD_self _ _ _
    · rw [hgp3]
      exact rfl
    · obtain ⟨tail, htail⟩ :=
        decRef_trace_head (n) (decRefActivation w d).1 p pden hgp3
      refine ⟨tail, ?_⟩
      show (decRef (Nat.succ (Nat.succ n)) w d).2 = _
      unfold decRef
      rw [hact]
      dsimp only
      rw [hact] at htail
      dsimp only at htail
      rw [htail]
      rfl
  | some q =>
    have hact : decRefActivation w d
        = (updD (setD (updI w i fun ino => { ino with refs := ino.refs - 1 }) d
            ⟨0, den.flags, some p, den.name, den.children, none⟩) p
            (fun pden => { pden with children := mDelete pden.children den.name }),
          [Event.lockTree, Event.decCount d, Event.inodeDecRef d, Event.lockDirMu p,
           Event.removeChild p den.name, Event.invalidateDentry d,
           Event.unlockDirMu p, Event.unlockTree], some p) := by
      unfold decRefActivation
      rw [hd]
      dsimp only
      rw [if_pos hrefs, hi, hp]
      dsimp only
      rw [hw2p]
      try dsimp only
      rw [hlook]
      rfl
    have hupd : updD (setD (updI w i fun ino => { ino with refs := ino.refs - 1 }) d
        ⟨0, den.flags, some p, den.name, den.children, none⟩) p
        (fun pden => { pden with children := mDelete pden.children den.name })
        = setD (setD (updI w i fun ino => { ino with refs := ino.refs - 1 }) d
            ⟨0, den.flags, some p, den.name, den.children, none⟩) p
            { pden with children := mDelete pden.children den.name } := by
      unfold updD
      rw [hw2p]
    have hgp3 : getD (decRefActivation w d).1 p
        = some { pden with children := mDelete pden.children den.name } := by
      rw [hact, hupd]
      exact getD_setD_self _ _ _
    refine ⟨by rw [hact], ?_, ?_, ?_, ?_⟩
    · rw [hact, hupd, getI_setD, getI_setD]
      exact hw1i
    · rw [hact, hupd, getD_setD_ne _ _ _ _ hpd]
      exact getD_setD_self _ _ _
    · rw [hgp3]
      exact rfl
    · obtain ⟨tail, htail⟩ :=
        decRef_trace_head (n) (decRefActivation w d).1 p
          { pden with children := mDelete pden.children den.name } hgp3
      refine ⟨tail, ?_⟩
      show (decRef (Nat.succ (Nat.succ n)) w d).2 = _
      unfold decRef
      rw [hact]
      dsimp only
      rw [hact] at htail
      dsimp only at htail
      rw [htail]
      rfl


/-- Witness for C2: dropping the last reference of the child dentry 1
of `worldB` (where it is still present in the parent's child map). -/
theorem C2_witness :
    (decRefActivation worldB 1).2.2 = some 0 ∧
    getI (decRefActivation worldB 1).1 1 = some { refs := 0, mode := 0x8000 } ∧
    getD (decRefActivation worldB 1).1 1
      = some ⟨0, 0, some 0, "a", [], none⟩ ∧
    getD (decRefActivation worldB 1).1 0
      = some ⟨2, 1, none, "", mDelete [("a", 1)] "a", some 0⟩ := by
  have h := C2_DecRef_zero_transition worldB 1 0 1
    { refs := 1, flags := 0, parent := some 0, name := "a", children := [], inode := some 1 }
    { refs := 2, flags := 1, parent := none, name := "", children := [("a", 1)], inode := some 0 }
    { refs := 1, mode := 0x8000 } 0 rfl rfl rfl rfl rfl (by decide) rfl
  exact ⟨h.1, h.2.1, h.2.2.1, h.2.2.2.1⟩

theorem getD_map_inode_updD_children (w : World) (p x : Nat) (nm : String) :
    (getD (updD w p
      (fun pden => { pden with children := mDelete pden.children nm })) x).map
        DentryS.inode
    = (getD w x).map DentryS.inode := by
  unfold updD
  cases h : getD w p with
  | none => rfl
  | some pden =>
    by_cases hx : p = x
    · subst hx
      rw [getD_setD_self, h]
      rfl
    · rw [getD_setD_ne _ _ _ _ hx]

/-- Claim C5: `Init(fs, inode)` stores the inode in the dentry without
touching the inode's reference count (the caller's reference is
transferred), caches the directory and symlink flags from the inode's
file type so that `isDir`/`isSymlink` afterwards report exactly that
type, the transferred inode reference is released (and the stored
pointer cleared) exactly at the final reference drop and never on a
non-final drop, and no modelled operation mutates the cached flags
after `Init`. -/
theorem C5_Init_transfers_and_caches :
    ∀ (w : World) (d i : Nat) (ino : InodeS), getI w i = some ino →
      (getD (DentryInit w d i) d).map DentryS.inode = some (some i) ∧
      getI (DentryInit w d i) i = some ino ∧
      (isDirW (DentryInit w d i) d = true ↔ fileType ino.mode = ModeDirectory) ∧
      (isSymlinkW (DentryInit w d i) d = true ↔ fileType ino.mode = ModeSymlink) ∧
      (∀ (v : World) (x : Nat) (dn : DentryS) (j : Nat) (jno : InodeS),
        getD v x = some dn → dn.refs = 1 → dn.inode = some j → getI v j = some jno →
        getI (decRefActivation v x).1 j = some { jno with refs := jno.refs - 1 } ∧
        (getD (decRefActivation v x).1 x).map DentryS.inode = some none) ∧
      (∀ (v : World) (x : Nat) (dn : DentryS),
        getD v x = some dn → dn.refs ≠ 1 →
        Event.inodeDecRef x ∉ (decRefActivation v x).2.1) ∧
      (∀ (v : World) (a : Nat) (nm : String) (c x : Nat),
        flagsW ((insertChild v a nm c).1) x = flagsW v x) ∧
      (∀ (fuel : Nat) (v : World) (a x : Nat),
        flagsW ((decRef fuel v a).1) x = flagsW v x) ∧
      (∀ (v : World) (a x : Nat), flagsW (deferDecRef v a) x = flagsW v x) ∧
      (∀ (fuel : Nat) (v : World) (x : Nat),
        flagsW ((processDeferredDecRefs fuel v).1) x = flagsW v x) := by
  intro w d i ino hi
  have hset : getD (DentryInit w d i) d
      = some ⟨1,
          (if fileType ino.mode = ModeDirectory then dflagsIsDir else 0) |||
            (if fileType ino.mode = ModeSymlink then dflagsIsSymlink else 0),
          none, "", [], some i⟩ := by
    unfold DentryInit
    rw [hi]
    exact getD_setD_self _ _ _
  refine ⟨?_, ?_, ?_, ?_, ?_, ?_, ?_, ?_, ?_, ?_⟩
  · rw [hset]
    rfl
  · show getI (DentryInit w d i) i = some ino
    unfold DentryInit
    rw [hi]
    exact hi
  · unfold isDirW
    rw [hset]
    unfold DentryS.isDir
    by_cases hdir : fileType ino.mode = ModeDirectory
    · by_cases hsym : fileType ino.mode = ModeSymlink
      · exfalso
        rw [hdir] at hsym
        revert hsym
        decide
      · simp [hdir, hsym, dflagsIsDir, dflagsIsSymlink] <;> decide
    · by_cases hsym : fileType ino.mode = ModeSymlink
      · simp [hdir, hsym, dflagsIsDir, dflagsIsSymlink] <;> decide
      · simp [hdir, hsym, dflagsIsDir, dflagsIsSymlink] <;> decide
  · unfold isSymlinkW
    rw [hset]
    unfold DentryS.isSymlink
    by_cases hdir : fileType ino.mode = ModeDirectory
    · by_cases hsym : fileType ino.mode = ModeSymlink
      · exfalso
        rw [hdir] at hsym
        revert hsym
        decide
      · simp [hdir, hsym, dflagsIsDir, dflagsIsSymlink] <;> decide
    · by_cases hsym : fileType ino.mode = ModeSymlink
      · simp [hdir, hsym, dflagsIsDir, dflagsIsSymlink] <;> decide
      · simp [hdir, hsym, dflagsIsDir, dflagsIsSymlink] <;> decide
  · intro v x dn j jno hgx hr hj hgj
    have hji : getI (updI v j fun ino => { ino with refs := ino.refs - 1 }) j
        = some { jno with refs := jno.refs - 1 } := getI_updI_self v j _ jno hgj
    unfold decRefActivation
    rw [hgx]
    dsimp only
    rw [if_pos hr, hj]
    dsimp only
    cases hpar : dn.parent with
    | none =>
      dsimp only
      refine ⟨hji, ?_⟩
      rw [getD_setD_self]
      rfl
    | some pp =>
      dsimp only
      split
      · constructor
        · rw [getI_updD, getI_setD]
          exact hji
        · rw [getD_map_inode_updD_children, getD_setD_self]
          rfl
      · refine ⟨hji, ?_⟩
        rw [getD_setD_self]
        rfl
  · intro v x dn hgx hr
    unfold decRefActivation
    rw [hgx]
    dsimp only
    rw [if_neg hr]
    dsimp only
    simp
  · intro v a nm c x
    exact flagsW_insertChildLocked v a nm c x
  · intro fuel v a x
    exact flagsW_decRef fuel v a x
  · intro v a x
    rfl
  · intro fuel v x
    show flagsW ((runDecRefs fuel { v with droppedDentries := [] }
      v.droppedDentries.reverse).1) x = flagsW v x
    exact flagsW_runDecRefs fuel _ _ x

/-- Witness for C5: a fresh dentry 5 over the directory inode 0 of
`worldA`. -/
theorem C5_witness :
    (getD (DentryInit worldA 5 0) 5).map DentryS.inode = some (some 0) ∧
    getI (DentryInit worldA 5 0) 0 = some { refs := 1, mode := 0x4000 } ∧
    isDirW (DentryInit worldA 5 0) 5 = true ∧
    isSymlinkW (DentryInit worldA 5 0) 5 = false := by
  have h := C5_Init_transfers_and_caches worldA 5 0 { refs := 1, mode := 0x4000 } rfl
  refine ⟨h.1, h.2.1, h.2.2.1.mpr (by decide), ?_⟩
  cases hb : isSymlinkW (DentryInit worldA 5 0) 5
  · rfl
  · exfalso
    have hft := h.2.2.2.1.mp hb
    revert hft
    decide

/-- Claim C8: `NextIno` increments the counter by exactly one (modulo
2^64) and returns the new value; on a fresh filesystem the n-th call
returns n modulo 2^64; absent wraparound the returned value strictly
exceeds the previous counter; and no other modelled operation touches
the counter. -/
theorem C8_NextIno_atomic_monotone :
    (∀ w : World, (NextIno w).1 = (w.nextInoMinusOne + 1) % 2 ^ 64 ∧
      (NextIno w).2.nextInoMinusOne = (NextIno w).1 ∧
      (NextIno w).2.dentries = w.dentries ∧ (NextIno w).2.inodes = w.inodes ∧
      (NextIno w).2.droppedDentries = w.droppedDentries) ∧
    (∀ w : World, w.nextInoMinusOne = 0 →
      ∀ n : Nat, (NextIno (nextInoIter w n)).1 = (n + 1) % 2 ^ 64) ∧
    (∀ w : World, w.nextInoMinusOne + 1 < 2 ^ 64 →
      (NextIno w).1 = w.nextInoMinusOne + 1 ∧ w.nextInoMinusOne < (NextIno w).1) ∧
    (∀ (w : World) (d i : Nat), (DentryInit w d i).nextInoMinusOne = w.nextInoMinusOne) ∧
    (∀ (w : World) (d : Nat) (nm : String) (c : Nat),
      ((insertChild w d nm c).1).nextInoMinusOne = w.nextInoMinusOne) ∧
    (∀ (fuel : Nat) (w : World) (d : Nat),
      ((decRef fuel w d).1).nextInoMinusOne = w.nextInoMinusOne) ∧
    (∀ (w : World) (d : Nat), (deferDecRef w d).nextInoMinusOne = w.nextInoMinusOne) ∧
    (∀ (fuel : Nat) (w : World),
      ((processDeferredDecRefs fuel w).1).nextInoMinusOne = w.nextInoMinusOne) := by
  refine ⟨?_, ?_, ?_, ?_, ?_, ?_, ?_, ?_⟩
  · intro w
    exact ⟨rfl, rfl, rfl, rfl, rfl⟩
  · intro w h n
    show (NextIno (nextInoIter w n)).1 = (n + 1) % 2 ^ 64
    unfold NextIno
    dsimp only
    rw [nextInoIter_counter w h n]
    omega
  · intro w h
    unfold NextIno
    dsimp only
    omega
  · intro w d i
    unfold DentryInit
    cases getI w i <;> rfl
  · intro w d nm c
    exact insertChildLocked_nextIno w d nm c
  · intro fuel w d
    exact decRef_nextIno fuel w d
  · intro w d
    rfl
  · intro fuel w
    show ((runDecRefs fuel { w with droppedDentries := [] }
      w.droppedDentries.reverse).1).nextInoMinusOne = w.nextInoMinusOne
    exact runDecRefs_nextIno fuel _ _

/-- Witness for C8: the fifth call on the fresh `worldA` returns 5, and
a single call past counter 0 returns 1. -/
theorem C8_witness :
    (NextIno (nextInoIter worldA 4)).1 = (4 + 1) % 2 ^ 64 ∧
    (NextIno worldA).1 = worldA.nextInoMinusOne + 1 :=
  ⟨C8_NextIno_atomic_monotone.2.1 worldA rfl 4,
   (C8_NextIno_atomic_monotone.2.2.1 worldA (by decide)).1⟩
